import Mathlib

/-!
Shallow embedding of the termnotes core: the note data model
(`internal/models/note.go`), the JSON persistence of the filesystem backend
(`internal/storage/filesystem.go`), the SQLite-backed store
(`internal/storage/store.go`), and the interaction state machine of the
terminal UI (`Model.handleKeyPress` and `Model.saveNote`).

Modelling conventions:
- Go strings are byte sequences; they are embedded as `List UInt8` (`GoStr`),
  and Go's `len` on a string is the list length.  String literals of the Go
  source are translated through the UTF-8 encoder `gs`.
- Machine integers (`int64`, `int`) are embedded as `Int`.
- `time.Time` values are embedded as a `Nat` wall clock.  Their JSON form is a
  text timestamp (RFC3339 in Go); the embedding renders the clock injectively
  as decimal text (`timeStr`) and parses it back (`parseTime`), which mirrors
  the fact that Go's RFC3339Nano rendering of a wall-clock time is inverted
  exactly by its parser.
- The persisted file is modelled at the level of the JSON value it contains
  (`JsonValue`); the textual layer produced by `json.MarshalIndent` and read
  back by `json.Unmarshal` is the standard library's inverse pair and is not
  re-modelled.  `encoding/json` marshals a nil slice as `null`; both `null`
  and an array decode into a note slice, and the decoder matches object keys
  case-insensitively after failing an exact match, which for this field set is
  the same as matching the ASCII-lowercased key.
- Fallible Go functions returning `error` are embedded as `Except String`.
-/

/-- Go strings are byte slices: embedded as lists of bytes. -/
abbrev GoStr := List UInt8

/-- UTF-8 encoding of a Lean string, used to translate Go string literals
(Go source files are UTF-8, and Go string literals denote their UTF-8 bytes). -/
def gs (s : String) : GoStr :=
  s.data.flatMap String.utf8EncodeChar

/-- `models.Note` (internal/models/note.go).  The struct has no json tags. -/
structure Note where
  id : Int
  title : GoStr
  content : GoStr
  createdAt : Nat
  updatedAt : Nat
deriving DecidableEq, Inhabited

/-- JSON values, with numbers restricted to the integers actually produced and
consumed here (`int64` ids; a non-integer number would be a decode error in Go
just as a non-number is, and neither is ever produced by the encoder). -/
inductive JsonValue where
  | null
  | bool (b : Bool)
  | num (n : Int)
  | str (s : GoStr)
  | arr (elems : List JsonValue)
  | obj (fields : List (GoStr × JsonValue))

/-- The ASCII byte of a decimal digit. -/
def digitByte (d : Nat) : UInt8 :=
  UInt8.ofNat (48 + d)

/-- Decimal text of the wall clock: the injective embedding of Go's
RFC3339Nano rendering of a `time.Time` value. -/
def timeStr (t : Nat) : GoStr :=
  if t = 0 then [digitByte 0] else ((Nat.digits 10 t).reverse).map digitByte

/-- Decode one byte of decimal timestamp text. -/
def digitOfByte (b : UInt8) : Option Nat :=
  if 48 ≤ b.toNat ∧ b.toNat ≤ 57 then some (b.toNat - 48) else none

/-- Parse decimal timestamp text: the embedding of Go's RFC3339 parser.
It fails on empty or non-digit text, as `time.Parse` fails on text that is
not a well-formed timestamp. -/
def parseTime (s : GoStr) : Option Nat :=
  if s.isEmpty then none
  else
    match s.mapM digitOfByte with
    | some ds => some (Nat.ofDigits 10 ds.reverse)
    | none => none

/-- `json.Marshal` of one `models.Note`.  The struct has no json tags, so the
encoder uses the exported Go field names verbatim, in declaration order. -/
def encodeNote (n : Note) : JsonValue :=
  .obj [(gs "ID", .num n.id),
        (gs "Title", .str n.title),
        (gs "Content", .str n.content),
        (gs "CreatedAt", .str (timeStr n.createdAt)),
        (gs "UpdatedAt", .str (timeStr n.updatedAt))]

/-- `json.Marshal` of a `[]models.Note` (as an array; a nil slice would render
as `null`, which decodes to the same empty collection). -/
def encodeNotes (ns : List Note) : JsonValue :=
  .arr (ns.map encodeNote)

/-- ASCII-lowercase one byte, as Go's case-insensitive field matching does for
the ASCII field names of `models.Note`. -/
def lowerByte (b : UInt8) : UInt8 :=
  if 65 ≤ b.toNat ∧ b.toNat ≤ 90 then b + 32 else b

/-- ASCII-lowercase an object key. -/
def lowerKey (k : GoStr) : GoStr :=
  k.map lowerByte

/-- The zero `models.Note`, the starting value `json.Unmarshal` fills in. -/
def zeroNote : Note :=
  { id := 0, title := [], content := [], createdAt := 0, updatedAt := 0 }

/-- Decode a JSON value into the `ID` field: a number is stored, `null` leaves
the field unchanged, any other shape is a decode error. -/
def decodeIdField (n : Note) (v : JsonValue) : Except String Note :=
  match v with
  | .num i => .ok { n with id := i }
  | .null => .ok n
  | _ => .error "cannot unmarshal value into field ID of type int64"

/-- Decode a JSON value into the `Title` field. -/
def decodeTitleField (n : Note) (v : JsonValue) : Except String Note :=
  match v with
  | .str s => .ok { n with title := s }
  | .null => .ok n
  | _ => .error "cannot unmarshal value into field Title of type string"

/-- Decode a JSON value into the `Content` field. -/
def decodeContentField (n : Note) (v : JsonValue) : Except String Note :=
  match v with
  | .str s => .ok { n with content := s }
  | .null => .ok n
  | _ => .error "cannot unmarshal value into field Content of type string"

/-- Decode a JSON value into the `CreatedAt` field: the text must parse as a
timestamp. -/
def decodeCreatedAtField (n : Note) (v : JsonValue) : Except String Note :=
  match v with
  | .str s =>
    match parseTime s with
    | some t => .ok { n with createdAt := t }
    | none => .error "parsing time: invalid timestamp"
  | .null => .ok n
  | _ => .error "cannot unmarshal value into field CreatedAt of type time.Time"

/-- Decode a JSON value into the `UpdatedAt` field. -/
def decodeUpdatedAtField (n : Note) (v : JsonValue) : Except String Note :=
  match v with
  | .str s =>
    match parseTime s with
    | some t => .ok { n with updatedAt := t }
    | none => .error "parsing time: invalid timestamp"
  | .null => .ok n
  | _ => .error "cannot unmarshal value into field UpdatedAt of type time.Time"

/-- One key/value pair of a JSON object applied to a `models.Note` being
decoded, as `json.Unmarshal` does: keys match the Go field names
case-insensitively, unknown keys are ignored, a `null` value leaves the field
unchanged, and a value of the wrong shape is a decode error.  (Go records the
first such error and keeps scanning; aborting at the first error agrees with
Go on whether decoding errors, which is all the development uses.) -/
def setField (n : Note) (k : GoStr) (v : JsonValue) : Except String Note :=
  let lk := lowerKey k
  if lk = gs "id" then decodeIdField n v
  else if lk = gs "title" then decodeTitleField n v
  else if lk = gs "content" then decodeContentField n v
  else if lk = gs "createdat" then decodeCreatedAtField n v
  else if lk = gs "updatedat" then decodeUpdatedAtField n v
  else .ok n

/-- `json.Unmarshal` of one array element into a `models.Note`: an object's
pairs are folded into the zero note in input order (a later duplicate key
overwrites an earlier one, as in Go); `null` yields the zero note; any other
shape is a decode error. -/
def decodeNote (j : JsonValue) : Except String Note :=
  match j with
  | .obj fields => fields.foldlM (fun n kv => setField n kv.1 kv.2) zeroNote
  | .null => .ok zeroNote
  | _ => .error "cannot unmarshal value into Go value of type models.Note"

/-- `json.Unmarshal` of the whole file into `[]models.Note`: `null` leaves the
slice nil (the empty collection), an array decodes elementwise, anything else
is a decode error. -/
def decodeNotes (j : JsonValue) : Except String (List Note) :=
  match j with
  | .null => .ok []
  | .arr l => l.mapM decodeNote
  | _ => .error "cannot unmarshal value into Go value of type []models.Note"

/-- Shapes accepted into the `ID` field. -/
def validIdField : JsonValue → Bool
  | .num _ => true
  | .null => true
  | _ => false

/-- Shapes accepted into a text field. -/
def validTextField : JsonValue → Bool
  | .str _ => true
  | .null => true
  | _ => false

/-- Shapes accepted into a timestamp field. -/
def validTimeField : JsonValue → Bool
  | .str s => (parseTime s).isSome
  | .null => true
  | _ => false

/-- Computable characterization of the persisted JSON shapes `decodeNotes`
accepts: used to state which file contents are well-formed. -/
def validField (k : GoStr) (v : JsonValue) : Bool :=
  let lk := lowerKey k
  if lk = gs "id" then validIdField v
  else if lk = gs "title" then validTextField v
  else if lk = gs "content" then validTextField v
  else if lk = gs "createdat" then validTimeField v
  else if lk = gs "updatedat" then validTimeField v
  else true

/-- A JSON value decodable as one note. -/
def validNoteJson : JsonValue → Bool
  | .null => true
  | .obj fields => fields.all fun kv => validField kv.1 kv.2
  | _ => false

/-- A JSON value decodable as a note collection. -/
def validNotesJson : JsonValue → Bool
  | .null => true
  | .arr l => l.all validNoteJson
  | _ => false

/-- Outcome of `os.ReadFile` on the backend's path: the file is missing, the
read fails for another reason, or it yields the stored JSON value. -/
inductive ReadResult where
  | notExist
  | ioError
  | ok (content : JsonValue)

/-- `FileSystemBackend.SaveAll`: the JSON value written to the file
(a successful write stores exactly the marshalled collection). -/
def saveAll (notes : List Note) : JsonValue :=
  encodeNotes notes

/-- `FileSystemBackend.LoadAll`: a missing file is the empty collection and no
error; any other read failure is an error; otherwise the content is
unmarshalled, and a decode failure is an error. -/
def loadAll (r : ReadResult) : Except String (List Note) :=
  match r with
  | .notExist => .ok []
  | .ioError => .error "failed to read file"
  | .ok j =>
    match decodeNotes j with
    | .ok notes => .ok notes
    | .error e => .error ("failed to unmarshal notes: " ++ e)

/-- Whether an `Except` result is a success. -/
def isOkE {α : Type} (x : Except String α) : Bool :=
  match x with
  | .ok _ => true
  | .error _ => false

/-- The keys of a JSON object, in order. -/
def objKeys (j : JsonValue) : List GoStr :=
  match j with
  | .obj fields => fields.map Prod.fst
  | _ => []

/-- The in-memory SQLite state of a `Store`: the `notes` table rows in rowid
order, and the `sqlite_sequence` counter of the AUTOINCREMENT id column
(0 while no row has ever been assigned). -/
structure StoreState where
  notes : List Note
  seq : Int
deriving DecidableEq

/-- A `Store` together with its backend's persisted file: `backendFile` is the
JSON value last successfully written by the backend (`none` before the first
successful write).  Backend behaviour is passed to the mutating operations as
a function saying whether `SaveAll` succeeds on a given collection. -/
structure BStore where
  db : StoreState
  backendFile : Option JsonValue

/-- Insert a note into a list that is sorted by `updatedAt` descending. -/
def insertByUpdatedDesc (n : Note) : List Note → List Note
  | [] => [n]
  | m :: ms => if m.updatedAt < n.updatedAt then n :: m :: ms else m :: insertByUpdatedDesc n ms

/-- Sort by `updatedAt` descending, the `ORDER BY updated_at DESC` of
`Store.ListNotes` (SQLite leaves the order of ties unspecified; this model
fixes one order for them). -/
def sortByUpdatedDesc : List Note → List Note
  | [] => []
  | n :: ns => insertByUpdatedDesc n (sortByUpdatedDesc ns)

/-- `Store.ListNotes`: all rows ordered by `updated_at` descending. -/
def listNotes (s : BStore) : List Note :=
  sortByUpdatedDesc s.db.notes

/-- `Store.syncToBackend`: list the full collection and hand it to
`Backend.SaveAll`, discarding the error.  On success the backend's file now
holds the marshalled collection; on failure it is left as it was.  Either way
nothing is returned to the caller. -/
def syncToBackend (b : List Note → Bool) (s : BStore) : BStore :=
  let ns := listNotes s
  if b ns then { s with backendFile := some (saveAll ns) } else s

/-- `Store.CreateNote`: SQLite's AUTOINCREMENT assigns one more than the larger
of the current maximum rowid and the `sqlite_sequence` value, then records the
new id in `sqlite_sequence`; timestamps are the current clock; the store then
synchronizes and returns the new note. -/
def createNote (b : List Note → Bool) (title content : GoStr) (now : Nat)
    (s : BStore) : Except String (Note × BStore) :=
  let newId := s.db.notes.foldl (fun a n => max a n.id) s.db.seq + 1
  let note : Note :=
    { id := newId, title := title, content := content, createdAt := now, updatedAt := now }
  let s1 : BStore := { s with db := { notes := s.db.notes ++ [note], seq := newId } }
  .ok (note, syncToBackend b s1)

/-- `Store.UpdateNote`: `UPDATE notes SET title, content, updated_at WHERE id`;
a missing id matches no row and is not an error; then synchronize. -/
def updateNote (b : List Note → Bool) (i : Int) (title content : GoStr) (now : Nat)
    (s : BStore) : Except String BStore :=
  let s1 : BStore :=
    { s with db := { s.db with notes := s.db.notes.map fun n =>
        if n.id = i then { n with title := title, content := content, updatedAt := now } else n } }
  .ok (syncToBackend b s1)

/-- `Store.DeleteNote`: `DELETE FROM notes WHERE id`; a missing id matches no
row and is not an error; then synchronize. -/
def deleteNote (b : List Note → Bool) (i : Int) (s : BStore) : Except String BStore :=
  let s1 : BStore :=
    { s with db := { s.db with notes := s.db.notes.filter fun n => n.id ≠ i } }
  .ok (syncToBackend b s1)

/-- The store state `Store.DeleteNote` succeeds with: the row with the given
id filtered out, then synchronized. -/
def storeAfterDelete (b : List Note → Bool) (i : Int) (s : BStore) : BStore :=
  syncToBackend b { s with db := { s.db with notes := s.db.notes.filter fun n => n.id ≠ i } }

/-- `Store.GetNote`: the row with that id, or the `sql.ErrNoRows` scan error
when there is none. -/
def getNote (i : Int) (s : BStore) : Except String Note :=
  match s.db.notes.find? (fun n => n.id == i) with
  | some n => .ok n
  | none => .error "failed to get note: sql: no rows in result set"

/-- `Store.insertNote`: INSERT with an explicit id, failing on a primary-key
collision; an explicit id larger than `sqlite_sequence` raises the counter. -/
def insertNote (n : Note) (s : BStore) : Except String BStore :=
  if s.db.notes.any (fun m => m.id == n.id) then
    .error "failed to insert note: UNIQUE constraint failed: notes.id"
  else
    .ok { s with db := { notes := s.db.notes ++ [n], seq := max s.db.seq n.id } }

/-- `storage.NewStore`: an empty in-memory database into which the backend's
loaded notes are inserted one by one, any insertion failure being fatal. -/
def newStore (loaded : List Note) : Except String BStore :=
  loaded.foldlM (fun s n => insertNote n s)
    { db := { notes := [], seq := 0 }, backendFile := none }

/-- A sequence of `Store.CreateNote` calls, collecting the returned ids. -/
def createMany (b : List Note → Bool) (ops : List (GoStr × GoStr × Nat))
    (s : BStore) : List Int × BStore :=
  match ops with
  | [] => ([], s)
  | (t, c, now) :: rest =>
    match createNote b t c now s with
    | .ok (note, s1) =>
      let r := createMany b rest s1
      (note.id :: r.1, r.2)
    | .error _ => ([], s)

/-- The UI's three modes (`modeNormal`, `modeEdit`, `modeCreate`). -/
inductive UiMode where
  | normal
  | edit
  | create
deriving DecidableEq

/-- `ui.Model`: the interaction state (rendering-only fields `width`, `height`
and the mouse handler are omitted; the shared `*storage.Store` the model holds
a pointer to is carried in `store`). -/
structure UiModel where
  store : BStore
  notes : List Note
  selectedIndex : Int
  mode : UiMode
  editTitle : GoStr
  editContent : GoStr
  cursorPos : Int
  editingTitle : Bool
  err : Option String

/-- Go slice indexing `notes[i]` as used by the handlers.  Go panics when the
index is out of range; the handlers only index under their `0 < len` and
`i < len` guards together with the non-negativity invariant on the selection,
and the theorems below only evaluate it under `0 ≤ i`, where it agrees with
Go. -/
def goNth (l : List Note) (i : Int) : Note :=
  l.getD i.toNat default

/-- The draft-title coercion at the top of `Model.saveNote`: an empty draft
title becomes "Untitled". -/
def coerceUntitled (m : UiModel) : UiModel :=
  if m.editTitle = [] then { m with editTitle := gs "Untitled" } else m

/-- The store call of `Model.saveNote`: Create mode inserts the draft, Edit
mode with a selection in range updates the selected note, anything else makes
no store call. -/
def commitDraft (b : List Note → Bool) (now : Nat) (m0 : UiModel) : Except String UiModel :=
  if m0.mode = .create then
    match createNote b m0.editTitle m0.editContent now m0.store with
    | .error e => .error e
    | .ok (_, st) => .ok { m0 with store := st }
  else if m0.mode = .edit ∧ m0.selectedIndex < (m0.notes.length : Int) then
    let note := goNth m0.notes m0.selectedIndex
    match updateNote b note.id m0.editTitle m0.editContent now m0.store with
    | .error e => .error e
    | .ok st => .ok { m0 with store := st }
  else .ok m0

/-- `Model.saveNote`: coerce an empty draft title to "Untitled", commit the
draft through `Store.CreateNote` or `Store.UpdateNote` according to the mode,
reload the snapshot, and report any error together with the (partially)
mutated model, as the Go pointer receiver does. -/
def saveNote (b : List Note → Bool) (now : Nat) (m : UiModel) : UiModel × Option String :=
  let m0 := coerceUntitled m
  match commitDraft b now m0 with
  | .error e => (m0, some e)
  | .ok m1 => ({ m1 with notes := listNotes m1.store }, none)

/-- The selection re-clamp the "d" handler applies after reloading the
snapshot: `if m.selectedIndex >= len(m.notes) && len(m.notes) > 0
{ m.selectedIndex = len(m.notes) - 1 }`. -/
def clampAfterDelete (m : UiModel) : UiModel :=
  if (m.notes.length : Int) ≤ m.selectedIndex ∧ 0 < m.notes.length then
    { m with selectedIndex := (m.notes.length : Int) - 1 }
  else m

/-- `Model.handleKeyPress`: the key dispatch of the interaction state machine.
`k` is the byte string `msg.String()` of the key message; `b` is the backend
behaviour and `now` the clock, threaded to the store calls. -/
def handleKeyPress (b : List Note → Bool) (now : Nat) (m : UiModel) (k : GoStr) : UiModel :=
  match m.mode with
  | .normal =>
    if k = gs "ctrl+c" ∨ k = gs "q" then m
    else if k = gs "n" then
      { m with mode := .create, editTitle := [], editContent := [],
               editingTitle := true, cursorPos := 0 }
    else if k = gs "e" then
      if 0 < m.notes.length ∧ m.selectedIndex < (m.notes.length : Int) then
        let note := goNth m.notes m.selectedIndex
        { m with mode := .edit, editTitle := note.title, editContent := note.content,
                 editingTitle := true, cursorPos := (note.title.length : Int) }
      else m
    else if k = gs "d" then
      if 0 < m.notes.length ∧ m.selectedIndex < (m.notes.length : Int) then
        let note := goNth m.notes m.selectedIndex
        match deleteNote b note.id m.store with
        | .error e => { m with err := some e }
        | .ok st => clampAfterDelete { m with store := st, notes := listNotes st }
      else m
    else if k = gs "up" ∨ k = gs "k" then
      if 0 < m.selectedIndex then { m with selectedIndex := m.selectedIndex - 1 } else m
    else if k = gs "down" ∨ k = gs "j" then
      if m.selectedIndex < (m.notes.length : Int) - 1 then
        { m with selectedIndex := m.selectedIndex + 1 }
      else m
    else m
  | .edit | .create =>
    if k = gs "esc" then { m with mode := .normal }
    else if k = gs "ctrl+s" then
      match saveNote b now m with
      | (m1, none) => { m1 with mode := .normal }
      | (m1, some e) => { m1 with err := some e }
    else if k = gs "tab" then
      let et := !m.editingTitle
      { m with editingTitle := et,
               cursorPos := if et then (m.editTitle.length : Int) else (m.editContent.length : Int) }
    else if k = gs "backspace" then
      if m.editingTitle then
        if 0 < m.cursorPos then
          { m with editTitle := m.editTitle.take (m.cursorPos - 1).toNat ++
                                m.editTitle.drop m.cursorPos.toNat,
                   cursorPos := m.cursorPos - 1 }
        else m
      else
        if 0 < m.cursorPos then
          { m with editContent := m.editContent.take (m.cursorPos - 1).toNat ++
                                  m.editContent.drop m.cursorPos.toNat,
                   cursorPos := m.cursorPos - 1 }
        else m
    else if k = gs "left" then
      if 0 < m.cursorPos then { m with cursorPos := m.cursorPos - 1 } else m
    else if k = gs "right" then
      let maxPos := if m.editingTitle then (m.editTitle.length : Int) else (m.editContent.length : Int)
      if m.cursorPos < maxPos then { m with cursorPos := m.cursorPos + 1 } else m
    else if k = gs "enter" then
      if m.editingTitle then
        { m with editingTitle := false, cursorPos := (m.editContent.length : Int) }
      else
        { m with editContent := m.editContent.take m.cursorPos.toNat ++ gs "\n" ++
                                m.editContent.drop m.cursorPos.toNat,
                 cursorPos := m.cursorPos + 1 }
    else
      if k.length = 1 then
        if m.editingTitle then
          { m with editTitle := m.editTitle.take m.cursorPos.toNat ++ k ++
                                m.editTitle.drop m.cursorPos.toNat,
                   cursorPos := m.cursorPos + 1 }
        else
          { m with editContent := m.editContent.take m.cursorPos.toNat ++ k ++
                                  m.editContent.drop m.cursorPos.toNat,
                   cursorPos := m.cursorPos + 1 }
      else m

/-- The length of the currently active draft field, as a Go `int`. -/
def activeLen (m : UiModel) : Int :=
  if m.editingTitle then (m.editTitle.length : Int) else (m.editContent.length : Int)

/-- The caret invariant: the caret offset lies within the active field's text,
so every slice the edit handlers take at the caret is in bounds. -/
def CursorInv (m : UiModel) : Prop :=
  0 ≤ m.cursorPos ∧ m.cursorPos ≤ activeLen m

instance (m : UiModel) : Decidable (CursorInv m) :=
  inferInstanceAs (Decidable (0 ≤ m.cursorPos ∧ m.cursorPos ≤ activeLen m))

/-- A sample note used by concrete instantiations. -/
def noteA : Note :=
  { id := 1, title := gs "a", content := gs "b", createdAt := 1, updatedAt := 1 }

/-- A second sample note with a later update time. -/
def noteB : Note :=
  { id := 2, title := gs "c", content := gs "d", createdAt := 2, updatedAt := 2 }

/-- A sample store holding `noteA`. -/
def storeA : BStore :=
  { db := { notes := [noteA], seq := 1 }, backendFile := none }

/-- A sample store holding `noteA` and `noteB`. -/
def storeAB : BStore :=
  { db := { notes := [noteA, noteB], seq := 2 }, backendFile := none }

/-- A backend whose `SaveAll` always fails. -/
def bFail : List Note → Bool := fun _ => false

/-- `noteA` after an update to new title and content at clock 5. -/
def noteAupd : Note :=
  { id := 1, title := gs "t", content := gs "u", createdAt := 1, updatedAt := 5 }

/-- `storeAB` after that update (a failing backend leaves the file as it was). -/
def storeABupd : BStore :=
  { db := { notes := [noteAupd, noteB], seq := 2 }, backendFile := none }

/-- A sample Normal-mode UI state over `storeA` with the snapshot loaded. -/
def uiNormalA : UiModel :=
  { store := storeA, notes := [noteA], selectedIndex := 0, mode := .normal,
    editTitle := [], editContent := [], cursorPos := 0, editingTitle := true, err := none }

/-- A sample Create-mode UI state with an empty draft. -/
def uiCreateEmpty : UiModel :=
  { store := storeA, notes := [noteA], selectedIndex := 0, mode := .create,
    editTitle := [], editContent := [], cursorPos := 0, editingTitle := true, err := none }

/-- Sorting produces a permutation: the inserted element joins the rest. -/
theorem perm_insertByUpdatedDesc (n : Note) (l : List Note) :
    (insertByUpdatedDesc n l).Perm (n :: l) := by
  induction l with
  | nil => exact List.Perm.refl _
  | cons m ms ih =>
    unfold insertByUpdatedDesc
    split
    · exact List.Perm.refl _
    · exact (List.Perm.cons m ih).trans (List.Perm.swap n m ms)

/-- `sortByUpdatedDesc` permutes its input. -/
theorem perm_sortByUpdatedDesc (l : List Note) : (sortByUpdatedDesc l).Perm l := by
  induction l with
  | nil => exact List.Perm.refl _
  | cons n ns ih =>
    exact (perm_insertByUpdatedDesc n (sortByUpdatedDesc ns)).trans (List.Perm.cons n ih)

/-- Inserting into a descending-sorted list keeps it descending-sorted. -/
theorem pairwise_insertByUpdatedDesc (n : Note) (l : List Note)
    (h : l.Pairwise (fun a b => b.updatedAt ≤ a.updatedAt)) :
    (insertByUpdatedDesc n l).Pairwise (fun a b => b.updatedAt ≤ a.updatedAt) := by
  induction l with
  | nil => simp [insertByUpdatedDesc]
  | cons m ms ih =>
    rw [List.pairwise_cons] at h
    unfold insertByUpdatedDesc
    split
    · rename_i hlt
      rw [List.pairwise_cons]
      refine ⟨?_, List.pairwise_cons.mpr h⟩
      intro x hx
      rcases List.mem_cons.mp hx with hx | hx
      · subst hx; omega
      · have := h.1 x hx; omega
    · rename_i hnlt
      rw [List.pairwise_cons]
      refine ⟨?_, ih h.2⟩
      intro x hx
      have hx' : x ∈ n :: ms := (perm_insertByUpdatedDesc n ms).mem_iff.mp hx
      rcases List.mem_cons.mp hx' with hx' | hx'
      · subst hx'; omega
      · exact h.1 x hx'

/-- `sortByUpdatedDesc` sorts by `updatedAt` descending. -/
theorem pairwise_sortByUpdatedDesc (l : List Note) :
    (sortByUpdatedDesc l).Pairwise (fun a b => b.updatedAt ≤ a.updatedAt) := by
  induction l with
  | nil => simp [sortByUpdatedDesc]
  | cons n ns ih => exact pairwise_insertByUpdatedDesc n _ ih

/-- In a descending-sorted list, an element strictly newer than every other
element is the head. -/
theorem head_of_sorted_strict_max (l : List Note) (x : Note)
    (hs : l.Pairwise (fun a b => b.updatedAt ≤ a.updatedAt)) (hx : x ∈ l)
    (hmax : ∀ y ∈ l, y ≠ x → y.updatedAt < x.updatedAt) : l.head? = some x := by
  cases l with
  | nil => cases hx
  | cons h t =>
    by_cases hhx : h = x
    · rw [hhx]; rfl
    · exfalso
      have hxt : x ∈ t := by
        rcases List.mem_cons.mp hx with hx | hx
        · exact absurd hx.symm hhx
        · exact hx
      have h1 : x.updatedAt ≤ h.updatedAt := (List.pairwise_cons.mp hs).1 x hxt
      have h2 : h.updatedAt < x.updatedAt := hmax h (List.mem_cons_self h t) hhx
      omega

/-- Decoding a rendered digit byte gives the digit back. -/
theorem digitOfByte_digitByte (d : Nat) (hd : d < 10) :
    digitOfByte (digitByte d) = some d := by
  unfold digitOfByte digitByte
  have h1 : (UInt8.ofNat (48 + d)).toNat = (48 + d) % 256 := rfl
  rw [h1]
  have h2 : (48 + d) % 256 = 48 + d := Nat.mod_eq_of_lt (by omega)
  rw [h2, if_pos (by omega)]
  congr 1
  omega

/-- Mapping rendered digit bytes back through the digit decoder succeeds. -/
theorem mapM_digitOfByte_map (l : List Nat) (h : ∀ d ∈ l, d < 10) :
    (l.map digitByte).mapM digitOfByte = some l := by
  induction l with
  | nil => rfl
  | cons d ds ih =>
    have hd : d < 10 := h d (List.mem_cons_self d ds)
    have hds : ∀ e ∈ ds, e < 10 := fun e he => h e (List.mem_cons_of_mem d he)
    rw [List.map_cons, List.mapM_cons, digitOfByte_digitByte d hd, ih hds]
    rfl

/-- The timestamp text round-trips: parsing the rendered clock recovers it. -/
theorem parseTime_timeStr (t : Nat) : parseTime (timeStr t) = some t := by
  by_cases h : t = 0
  · subst h; decide
  · unfold timeStr
    rw [if_neg h]
    unfold parseTime
    have hne : Nat.digits 10 t ≠ [] := Nat.digits_ne_nil_iff_ne_zero.mpr h
    have hemp : (((Nat.digits 10 t).reverse).map digitByte).isEmpty = false := by
      rw [List.isEmpty_eq_false_iff_exists_mem]
      rcases List.exists_mem_of_ne_nil _ hne with ⟨d, hd⟩
      exact ⟨digitByte d, List.mem_map_of_mem _ (List.mem_reverse.mpr hd)⟩
    rw [hemp]
    simp only [Bool.false_eq_true, if_false]
    have hlt : ∀ d ∈ (Nat.digits 10 t).reverse, d < 10 := by
      intro d hd
      exact Nat.digits_lt_base (by omega) (List.mem_reverse.mp hd)
    rw [mapM_digitOfByte_map _ hlt]
    simp [Nat.ofDigits_digits]

/-- Decoding the encoded `ID` field stores the id. -/
theorem setField_encoded_id (n : Note) (i : Int) :
    setField n (gs "ID") (.num i) = .ok { n with id := i } := rfl

/-- Decoding the encoded `Title` field stores the title. -/
theorem setField_encoded_title (n : Note) (s : GoStr) :
    setField n (gs "Title") (.str s) = .ok { n with title := s } := rfl

/-- Decoding the encoded `Content` field stores the content. -/
theorem setField_encoded_content (n : Note) (s : GoStr) :
    setField n (gs "Content") (.str s) = .ok { n with content := s } := rfl

/-- Decoding the encoded `CreatedAt` field recovers the creation time. -/
theorem setField_encoded_createdAt (n : Note) (t : Nat) :
    setField n (gs "CreatedAt") (.str (timeStr t)) = .ok { n with createdAt := t } := by
  show (match parseTime (timeStr t) with
        | some u => Except.ok { n with createdAt := u }
        | none => Except.error "parsing time: invalid timestamp") = _
  rw [parseTime_timeStr]

/-- Decoding the encoded `UpdatedAt` field recovers the update time. -/
theorem setField_encoded_updatedAt (n : Note) (t : Nat) :
    setField n (gs "UpdatedAt") (.str (timeStr t)) = .ok { n with updatedAt := t } := by
  show (match parseTime (timeStr t) with
        | some u => Except.ok { n with updatedAt := u }
        | none => Except.error "parsing time: invalid timestamp") = _
  rw [parseTime_timeStr]

/-- Unmarshalling a marshalled note gives the note back. -/
theorem decodeNote_encodeNote (n : Note) : decodeNote (encodeNote n) = .ok n := by
  show List.foldlM _ _ _ = _
  rw [List.foldlM_cons]
  rw [setField_encoded_id]
  show List.foldlM _ _ _ = _
  rw [List.foldlM_cons, setField_encoded_title]
  show List.foldlM _ _ _ = _
  rw [List.foldlM_cons, setField_encoded_content]
  show List.foldlM _ _ _ = _
  rw [List.foldlM_cons, setField_encoded_createdAt]
  show List.foldlM _ _ _ = _
  rw [List.foldlM_cons, setField_encoded_updatedAt]
  rfl

/-- Unmarshalling a marshalled collection gives the collection back. -/
theorem decodeNotes_encodeNotes (ns : List Note) :
    decodeNotes (encodeNotes ns) = .ok ns := by
  show List.mapM _ _ = _
  induction ns with
  | nil => rfl
  | cons n rest ih =>
    rw [List.map_cons, List.mapM_cons, decodeNote_encodeNote, ih]
    rfl

/-- C1: saving any collection of notes through `FileSystemBackend.SaveAll` and
loading it back through `FileSystemBackend.LoadAll` on the same path returns
exactly the saved collection — same ids, titles, contents and
createdAt/updatedAt timestamps (so in particular equal up to reordering) —
for arbitrary title and content byte strings, which covers Unicode and
multi-line text. -/
theorem backend_roundtrip (ns : List Note) :
    loadAll (ReadResult.ok (saveAll ns)) = .ok ns := by
  show (match decodeNotes (encodeNotes ns) with
        | .ok notes => Except.ok notes
        | .error e => Except.error ("failed to unmarshal notes: " ++ e)) = _
  rw [decodeNotes_encodeNotes]

/-- C2 (counterexample): the file written by `SaveAll` does not use the field
names `id`, `title`, `content`, `createdAt`, `updatedAt`: for a concrete note
the encoded keys differ from those names, and no key `id` occurs at all
(`models.Note` has no json tags, so Go uses the exported field names). -/
theorem persisted_field_names_counterexample :
    objKeys (encodeNote zeroNote) ≠
      [gs "id", gs "title", gs "content", gs "createdAt", gs "updatedAt"] ∧
    gs "id" ∉ objKeys (encodeNote zeroNote) := by
  constructor
  · decide
  · decide

/-- C2 (amended): the file written by `SaveAll` encodes each note record with
exactly the field names `ID`, `Title`, `Content`, `CreatedAt`, `UpdatedAt`,
in that order, preserving these names and their casing. -/
theorem persisted_field_names (n : Note) :
    objKeys (encodeNote n) =
      [gs "ID", gs "Title", gs "Content", gs "CreatedAt", gs "UpdatedAt"] := rfl

/-- A field decode succeeds exactly on the shapes the validity predicate
accepts (id field). -/
theorem isOkE_decodeIdField (n : Note) (v : JsonValue) :
    isOkE (decodeIdField n v) = validIdField v := by
  cases v <;> rfl

/-- A field decode succeeds exactly on the shapes the validity predicate
accepts (title field). -/
theorem isOkE_decodeTitleField (n : Note) (v : JsonValue) :
    isOkE (decodeTitleField n v) = validTextField v := by
  cases v <;> rfl

/-- A field decode succeeds exactly on the shapes the validity predicate
accepts (content field). -/
theorem isOkE_decodeContentField (n : Note) (v : JsonValue) :
    isOkE (decodeContentField n v) = validTextField v := by
  cases v <;> rfl

/-- A field decode succeeds exactly on the shapes the validity predicate
accepts (createdAt field). -/
theorem isOkE_decodeCreatedAtField (n : Note) (v : JsonValue) :
    isOkE (decodeCreatedAtField n v) = validTimeField v := by
  cases v <;> try rfl
  rename_i s
  cases hp : parseTime s <;> simp [decodeCreatedAtField, validTimeField, hp, isOkE]

/-- A field decode succeeds exactly on the shapes the validity predicate
accepts (updatedAt field). -/
theorem isOkE_decodeUpdatedAtField (n : Note) (v : JsonValue) :
    isOkE (decodeUpdatedAtField n v) = validTimeField v := by
  cases v <;> try rfl
  rename_i s
  cases hp : parseTime s <;> simp [decodeUpdatedAtField, validTimeField, hp, isOkE]

/-- Setting one field succeeds exactly when the key/value pair is valid
(independently of the note being filled in). -/
theorem isOkE_setField (n : Note) (k : GoStr) (v : JsonValue) :
    isOkE (setField n k v) = validField k v := by
  simp only [setField, validField]
  by_cases h1 : lowerKey k = gs "id"
  · simp [h1, isOkE_decodeIdField]
  by_cases h2 : lowerKey k = gs "title"
  · have e1 : ¬(gs "title" = gs "id") := by decide
    simp [h2, e1, isOkE_decodeTitleField]
  by_cases h3 : lowerKey k = gs "content"
  · have e1 : ¬(gs "content" = gs "id") := by decide
    have e2 : ¬(gs "content" = gs "title") := by decide
    simp [h3, e1, e2, isOkE_decodeContentField]
  by_cases h4 : lowerKey k = gs "createdat"
  · have e1 : ¬(gs "createdat" = gs "id") := by decide
    have e2 : ¬(gs "createdat" = gs "title") := by decide
    have e3 : ¬(gs "createdat" = gs "content") := by decide
    simp [h4, e1, e2, e3, isOkE_decodeCreatedAtField]
  by_cases h5 : lowerKey k = gs "updatedat"
  · have e1 : ¬(gs "updatedat" = gs "id") := by decide
    have e2 : ¬(gs "updatedat" = gs "title") := by decide
    have e3 : ¬(gs "updatedat" = gs "content") := by decide
    have e4 : ¬(gs "updatedat" = gs "createdat") := by decide
    simp [h5, e1, e2, e3, e4, isOkE_decodeUpdatedAtField]
  simp [h1, h2, h3, h4, h5, isOkE]

/-- Folding the object pairs into a note succeeds exactly when every pair is
valid, whatever note the fold starts from. -/
theorem isOkE_foldlM_setField (fields : List (GoStr × JsonValue)) :
    ∀ n : Note, isOkE (fields.foldlM (fun n kv => setField n kv.1 kv.2) n) =
      fields.all (fun kv => validField kv.1 kv.2) := by
  induction fields with
  | nil => intro n; rfl
  | cons kv rest ih =>
    intro n
    rw [List.foldlM_cons, List.all_cons]
    cases hs : setField n kv.1 kv.2 with
    | error e =>
      have hv : validField kv.1 kv.2 = false := by
        rw [← isOkE_setField n kv.1 kv.2, hs]; rfl
      rw [hv]
      show isOkE (Except.error e >>= _) = false
      rfl
    | ok n1 =>
      have hv : validField kv.1 kv.2 = true := by
        rw [← isOkE_setField n kv.1 kv.2, hs]; rfl
      rw [hv]
      show isOkE (Except.ok n1 >>= _) = _
      rw [Bool.true_and]
      exact ih n1

/-- Decoding one element succeeds exactly when it is a valid note shape. -/
theorem isOkE_decodeNote (j : JsonValue) : isOkE (decodeNote j) = validNoteJson j := by
  cases j with
  | obj fields => exact isOkE_foldlM_setField fields zeroNote
  | null => rfl
  | bool b => rfl
  | num n => rfl
  | str s => rfl
  | arr l => rfl

/-- Decoding a list of elements succeeds exactly when every element is valid. -/
theorem isOkE_mapM_decodeNote (l : List JsonValue) :
    isOkE (l.mapM decodeNote) = l.all validNoteJson := by
  induction l with
  | nil => rfl
  | cons j rest ih =>
    rw [List.mapM_cons, List.all_cons]
    cases hj : decodeNote j with
    | error e =>
      have hv : validNoteJson j = false := by rw [← isOkE_decodeNote j, hj]; rfl
      rw [hv]
      show isOkE (Except.error e >>= _) = false
      rfl
    | ok n =>
      have hv : validNoteJson j = true := by rw [← isOkE_decodeNote j, hj]; rfl
      rw [hv, Bool.true_and, ← ih]
      show isOkE (Except.ok n >>= _) = _
      cases hrest : rest.mapM decodeNote <;> rfl

/-- Decoding the file contents succeeds exactly when they are well-formed. -/
theorem isOkE_decodeNotes (j : JsonValue) :
    isOkE (decodeNotes j) = validNotesJson j := by
  cases j with
  | arr l => exact isOkE_mapM_decodeNote l
  | null => rfl
  | bool b => rfl
  | num n => rfl
  | str s => rfl
  | obj fields => rfl

/-- C7: when no file exists at the backend's path, `LoadAll` returns the empty
collection and no error; any other read failure is an error; and any stored
content that is not a well-formed persisted collection is a decode error. -/
theorem loadAll_missing_empty_otherwise_error :
    loadAll ReadResult.notExist = .ok [] ∧
    isOkE (loadAll ReadResult.ioError) = false ∧
    ∀ j : JsonValue, validNotesJson j = false → isOkE (loadAll (ReadResult.ok j)) = false := by
  refine ⟨rfl, rfl, ?_⟩
  intro j hj
  show isOkE (match decodeNotes j with
              | .ok notes => Except.ok notes
              | .error e => Except.error ("failed to unmarshal notes: " ++ e)) = false
  cases hd : decodeNotes j with
  | ok notes =>
    exfalso
    have h2 := isOkE_decodeNotes j
    rw [hd, hj] at h2
    simp [isOkE] at h2
  | error e => rfl

/-- C7 (witness): at the concrete malformed content `3` — a JSON number where
a collection is expected — `LoadAll` errors, while a missing file loads as the
empty collection. -/
theorem loadAll_missing_empty_otherwise_error_witness :
    validNotesJson (JsonValue.num 3) = false ∧
    isOkE (loadAll (ReadResult.ok (JsonValue.num 3))) = false ∧
    loadAll ReadResult.notExist = .ok [] := by
  refine ⟨by decide, ?_, loadAll_missing_empty_otherwise_error.1⟩
  exact loadAll_missing_empty_otherwise_error.2.2 (JsonValue.num 3) (by decide)

/-- Synchronization only touches the backend's file, never the database. -/
theorem db_syncToBackend (b : List Note → Bool) (s : BStore) :
    (syncToBackend b s).db = s.db := by
  unfold syncToBackend
  dsimp only
  split <;> rfl

/-- C3: a failing backend synchronization (`Backend.SaveAll` returning an
error) is never surfaced by `Store.CreateNote`, `Store.UpdateNote` or
`Store.DeleteNote`: for every backend behaviour — including one that always
fails — each call returns success (the new note, resp. a nil error) and the
in-memory collection reflects the mutation. -/
theorem sync_failure_not_surfaced (b : List Note → Bool) (s : BStore)
    (t c : GoStr) (now : Nat) (i : Int) :
    (∃ note s1, createNote b t c now s = .ok (note, s1) ∧
        s1.db.notes = s.db.notes ++ [note] ∧ note.title = t ∧ note.content = c) ∧
    (∃ s1, updateNote b i t c now s = .ok s1 ∧
        s1.db.notes = s.db.notes.map fun n =>
          if n.id = i then { n with title := t, content := c, updatedAt := now } else n) ∧
    (∃ s1, deleteNote b i s = .ok s1 ∧
        s1.db.notes = s.db.notes.filter fun n => n.id ≠ i) := by
  refine ⟨⟨_, _, rfl, ?_, rfl, rfl⟩, ⟨_, rfl, ?_⟩, ⟨_, rfl, ?_⟩⟩ <;>
    rw [db_syncToBackend]

/-- Folding `max` of the ids over a list bounded by the start value is the
start value. -/
theorem foldl_max_of_le (l : List Note) (a : Int) (h : ∀ n ∈ l, n.id ≤ a) :
    l.foldl (fun x n => max x n.id) a = a := by
  induction l generalizing a with
  | nil => rfl
  | cons m ms ih =>
    rw [List.foldl_cons, max_eq_left (h m (List.mem_cons_self m ms))]
    exact ih a fun n hn => h n (List.mem_cons_of_mem m hn)

/-- On a store whose ids are bounded by the sequence counter, `CreateNote`
assigns exactly the next counter value. -/
theorem createNote_ok (b : List Note → Bool) (t c : GoStr) (now : Nat) (s : BStore)
    (hs : ∀ n ∈ s.db.notes, n.id ≤ s.db.seq) :
    createNote b t c now s = .ok
      ({ id := s.db.seq + 1, title := t, content := c, createdAt := now, updatedAt := now },
       syncToBackend b { s with db :=
         { notes := s.db.notes ++
             [{ id := s.db.seq + 1, title := t, content := c, createdAt := now, updatedAt := now }],
           seq := s.db.seq + 1 } }) := by
  simp only [createNote]
  rw [foldl_max_of_le _ _ hs]

/-- Repeated creation from a counter-bounded store yields ids all above the
counter, strictly increasing, and keeps the store counter-bounded. -/
theorem createMany_spec (b : List Note → Bool) (ops : List (GoStr × GoStr × Nat)) :
    ∀ s : BStore, (∀ n ∈ s.db.notes, n.id ≤ s.db.seq) →
      (∀ i ∈ (createMany b ops s).1, s.db.seq < i) ∧
      (createMany b ops s).1.Pairwise (· < ·) ∧
      (∀ n ∈ (createMany b ops s).2.db.notes, n.id ≤ (createMany b ops s).2.db.seq) := by
  induction ops with
  | nil =>
    intro s hs
    exact ⟨by simp [createMany], by simp [createMany], by simpa [createMany] using hs⟩
  | cons op rest ih =>
    obtain ⟨t, c, now⟩ := op
    intro s hs
    have hc : createMany b ((t, c, now) :: rest) s =
        ((s.db.seq + 1) ::
          (createMany b rest (syncToBackend b { s with db :=
            { notes := s.db.notes ++
                [{ id := s.db.seq + 1, title := t, content := c,
                   createdAt := now, updatedAt := now }],
              seq := s.db.seq + 1 } })).1,
          (createMany b rest (syncToBackend b { s with db :=
            { notes := s.db.notes ++
                [{ id := s.db.seq + 1, title := t, content := c,
                   createdAt := now, updatedAt := now }],
              seq := s.db.seq + 1 } })).2) := by
      rw [createMany, createNote_ok b t c now s hs]
    have hinv1 : ∀ n ∈ (syncToBackend b { s with db :=
        { notes := s.db.notes ++
            [{ id := s.db.seq + 1, title := t, content := c,
               createdAt := now, updatedAt := now }],
          seq := s.db.seq + 1 } }).db.notes,
        n.id ≤ (syncToBackend b { s with db :=
        { notes := s.db.notes ++
            [{ id := s.db.seq + 1, title := t, content := c,
               createdAt := now, updatedAt := now }],
          seq := s.db.seq + 1 } }).db.seq := by
      rw [db_syncToBackend]
      dsimp only
      intro n hn
      rcases List.mem_append.mp hn with hn | hn
      · have := hs n hn; omega
      · rcases List.mem_singleton.mp hn with rfl; dsimp only; omega
    obtain ⟨hgt, hpw, hinv2⟩ := ih _ hinv1
    rw [db_syncToBackend] at hgt
    dsimp only at hgt
    refine ⟨?_, ?_, ?_⟩
    · rw [hc]
      intro i hi
      rcases List.mem_cons.mp hi with rfl | hi
      · omega
      · have := hgt i hi; omega
    · rw [hc]
      rw [List.pairwise_cons]
      refine ⟨fun i hi => ?_, hpw⟩
      have := hgt i hi; omega
    · rw [hc]
      exact hinv2

/-- Loading the backend's notes one by one keeps all ids at or below the
sequence counter, and the counter never decreases. -/
theorem foldlM_insertNote_spec (loaded : List Note) :
    ∀ s0 st : BStore, loaded.foldlM (fun s n => insertNote n s) s0 = .ok st →
      (∀ n ∈ s0.db.notes, n.id ≤ s0.db.seq) →
      (∀ n ∈ st.db.notes, n.id ≤ st.db.seq) ∧ s0.db.seq ≤ st.db.seq ∧
      ∀ n ∈ loaded, n.id ≤ st.db.seq := by
  induction loaded with
  | nil =>
    intro s0 st h hinv
    have hst : s0 = st := by
      have h' : Except.ok s0 = Except.ok st := h
      exact Except.ok.inj h'
    subst hst
    exact ⟨hinv, le_refl _, by simp⟩
  | cons n rest ih =>
    intro s0 st h hinv
    rw [List.foldlM_cons] at h
    cases hins : insertNote n s0 with
    | error e =>
      rw [hins] at h
      exact absurd (show Except.error e = Except.ok st from h) (by simp)
    | ok s1 =>
      rw [hins] at h
      have h' : rest.foldlM (fun s n => insertNote n s) s1 = .ok st := h
      have hs1 : s1.db.notes = s0.db.notes ++ [n] ∧ s1.db.seq = max s0.db.seq n.id := by
        unfold insertNote at hins
        split at hins
        · exact absurd hins (by simp)
        · have := Except.ok.inj hins
          subst this
          exact ⟨rfl, rfl⟩
      have hinv1 : ∀ m ∈ s1.db.notes, m.id ≤ s1.db.seq := by
        rw [hs1.1, hs1.2]
        intro m hm
        rcases List.mem_append.mp hm with hm | hm
        · have := hinv m hm
          exact le_trans this (le_max_left _ _)
        · rcases List.mem_singleton.mp hm with rfl
          exact le_max_right _ _
      obtain ⟨hi, hle, hall⟩ := ih s1 st h' hinv1
      have hseq : s0.db.seq ≤ s1.db.seq := by rw [hs1.2]; exact le_max_left _ _
      refine ⟨hi, le_trans hseq hle, ?_⟩
      intro m hm
      rcases List.mem_cons.mp hm with rfl | hm
      · exact le_trans (by rw [hs1.2]; exact le_max_right _ _) hle
      · exact hall m hm

/-- C4: for every sequence of `Store.CreateNote` calls on one store — also one
initialized from a backend holding previously assigned ids — the returned ids
are strictly increasing in creation order (hence pairwise distinct), and every
fresh id is strictly larger than every loaded id. -/
theorem create_ids_fresh_increasing (loaded : List Note) (b : List Note → Bool)
    (ops : List (GoStr × GoStr × Nat)) (st : BStore)
    (h : newStore loaded = .ok st) :
    (createMany b ops st).1.Pairwise (· < ·) ∧
    ∀ n ∈ loaded, ∀ i ∈ (createMany b ops st).1, n.id < i := by
  obtain ⟨hinv, _, hall⟩ := foldlM_insertNote_spec loaded _ st h (by simp)
  obtain ⟨hgt, hpw, _⟩ := createMany_spec b ops st hinv
  exact ⟨hpw, fun n hn i hi => lt_of_le_of_lt (hall n hn) (hgt i hi)⟩

/-- C4 (witness): a store loaded with a note of id 2 and then two creations
yields strictly increasing ids, both larger than the loaded id. -/
theorem create_ids_fresh_increasing_witness :
    newStore [noteB] = Except.ok { db := { notes := [noteB], seq := 2 }, backendFile := none } ∧
    ((createMany bFail [(gs "x", gs "y", 3), (gs "z", gs "w", 4)]
        { db := { notes := [noteB], seq := 2 }, backendFile := none }).1.Pairwise (· < ·) ∧
      ∀ n ∈ [noteB], ∀ i ∈ (createMany bFail [(gs "x", gs "y", 3), (gs "z", gs "w", 4)]
        { db := { notes := [noteB], seq := 2 }, backendFile := none }).1, n.id < i) :=
  ⟨rfl, create_ids_fresh_increasing [noteB] bFail [(gs "x", gs "y", 3), (gs "z", gs "w", 4)]
    { db := { notes := [noteB], seq := 2 }, backendFile := none } rfl⟩

/-- C5: `Store.ListNotes` always returns the full collection (a permutation of
the table rows) sorted by `updatedAt` descending; and after `Store.UpdateNote`
on an existing note — with table ids unique, as the primary key guarantees,
and the update's clock later than every other note's `updatedAt`, as a
monotonic wall clock gives — that note is the first element of the next
`ListNotes` result. -/
theorem listNotes_sorted_update_first (s : BStore) :
    (listNotes s).Perm s.db.notes ∧
    (listNotes s).Pairwise (fun a b => b.updatedAt ≤ a.updatedAt) ∧
    ∀ (b : List Note → Bool) (i : Int) (t c : GoStr) (now : Nat) (s1 : BStore) (n0 : Note),
      (s.db.notes.map Note.id).Nodup → n0 ∈ s.db.notes → n0.id = i →
      (∀ n ∈ s.db.notes, n.id ≠ i → n.updatedAt < now) →
      updateNote b i t c now s = .ok s1 →
      (listNotes s1).head? = some { n0 with title := t, content := c, updatedAt := now } := by
  refine ⟨perm_sortByUpdatedDesc _, pairwise_sortByUpdatedDesc _, ?_⟩
  intro b i t c now s1 n0 hnd hmem hid hothers hupd
  have hupd' : Except.ok (syncToBackend b { s with db := { s.db with
      notes := s.db.notes.map fun n =>
        if n.id = i then { n with title := t, content := c, updatedAt := now } else n } })
      = Except.ok s1 := hupd
  have hs1 : s1.db.notes = s.db.notes.map fun n =>
      if n.id = i then { n with title := t, content := c, updatedAt := now } else n := by
    rw [← Except.ok.inj hupd', db_syncToBackend]
  have hg0 : (if n0.id = i then { n0 with title := t, content := c, updatedAt := now } else n0)
      = { n0 with title := t, content := c, updatedAt := now } := if_pos hid
  apply head_of_sorted_strict_max
  · exact pairwise_sortByUpdatedDesc _
  · refine (perm_sortByUpdatedDesc _).mem_iff.mpr ?_
    rw [hs1, ← hg0]
    exact List.mem_map_of_mem _ hmem
  · intro y hy hne
    have hy' : y ∈ s.db.notes.map fun n =>
        if n.id = i then { n with title := t, content := c, updatedAt := now } else n := by
      rw [← hs1]
      exact (perm_sortByUpdatedDesc _).mem_iff.mp hy
    obtain ⟨n', hn', hyeq⟩ := List.mem_map.mp hy'
    by_cases hni : n'.id = i
    · exfalso
      have hn0 : n' = n0 := List.inj_on_of_nodup_map hnd hn' hmem (by rw [hni, hid])
      apply hne
      rw [← hyeq, hn0, hg0]
    · rw [← hyeq, if_neg hni]
      exact hothers n' hn' hni

/-- C5 (witness): updating the older of two notes at a later clock makes it
the head of the next listing. -/
theorem listNotes_sorted_update_first_witness :
    (listNotes storeAB).Perm storeAB.db.notes ∧
    (listNotes storeABupd).head? = some noteAupd :=
  ⟨(listNotes_sorted_update_first storeAB).1,
   (listNotes_sorted_update_first storeAB).2.2 bFail 1 (gs "t") (gs "u") 5 storeABupd
     noteA (by decide) (by decide) (by decide) (by decide) rfl⟩

/-- C6: for an id absent from the collection, `Store.UpdateNote` and
`Store.DeleteNote` return no error and leave the in-memory collection
unchanged, while `Store.GetNote` returns an error. -/
theorem absent_id_noop_get_error (b : List Note → Bool) (s : BStore) (i : Int)
    (t c : GoStr) (now : Nat) (h : ∀ n ∈ s.db.notes, n.id ≠ i) :
    (∃ s1, updateNote b i t c now s = .ok s1 ∧ s1.db.notes = s.db.notes) ∧
    (∃ s1, deleteNote b i s = .ok s1 ∧ s1.db.notes = s.db.notes) ∧
    isOkE (getNote i s) = false := by
  refine ⟨⟨_, rfl, ?_⟩, ⟨_, rfl, ?_⟩, ?_⟩
  · rw [db_syncToBackend]
    dsimp only
    have hcongr : ∀ n ∈ s.db.notes,
        (if n.id = i then { n with title := t, content := c, updatedAt := now } else n) = id n :=
      fun n hn => if_neg (h n hn)
    rw [List.map_congr_left hcongr, List.map_id]
  · rw [db_syncToBackend]
    dsimp only
    rw [List.filter_eq_self]
    intro a ha
    simpa using h a ha
  · unfold getNote
    have hnone : s.db.notes.find? (fun n => n.id == i) = none :=
      List.find?_eq_none.mpr fun x hx => by simpa using h x hx
    rw [hnone]
    rfl

/-- C6 (witness): with the two-note store and the absent id 99, update and
delete are accepted no-ops and get errors. -/
theorem absent_id_noop_get_error_witness :
    (∃ s1, updateNote bFail 99 (gs "t") (gs "u") 5 storeAB = .ok s1 ∧
        s1.db.notes = storeAB.db.notes) ∧
    (∃ s1, deleteNote bFail 99 storeAB = .ok s1 ∧ s1.db.notes = storeAB.db.notes) ∧
    isOkE (getNote 99 storeAB) = false :=
  absent_id_noop_get_error bFail storeAB 99 (gs "t") (gs "u") 5 (by decide)

/-- Indexing under the guards returns a member of the list. -/
theorem goNth_mem (l : List Note) (i : Int) (h0 : 0 ≤ i) (hl : i < (l.length : Int)) :
    goNth l i ∈ l := by
  unfold goNth
  have hn : i.toNat < l.length := by omega
  rw [List.getD_eq_getElem l default hn]
  exact List.getElem_mem hn

/-- Removing the one row carrying a given member's id from a table with
pairwise distinct ids drops the length by exactly one. -/
theorem length_filter_ne_of_nodup (l : List Note) (x : Note)
    (hnd : (l.map Note.id).Nodup) (hx : x ∈ l) :
    (l.filter fun n => n.id ≠ x.id).length = l.length - 1 := by
  induction l with
  | nil => cases hx
  | cons h t ih =>
    rw [List.map_cons, List.nodup_cons] at hnd
    by_cases hhx : h.id = x.id
    · have ht : ∀ n ∈ t, n.id ≠ x.id := by
        intro n hn heq
        apply hnd.1
        rw [hhx, ← heq]
        exact List.mem_map_of_mem Note.id hn
      rw [List.filter_cons]
      have hp : (decide (h.id ≠ x.id)) = false := by simp [hhx]
      rw [hp]
      simp only [Bool.false_eq_true, if_false]
      rw [List.filter_eq_self.mpr fun a ha => by simpa using ht a ha]
      simp only [List.length_cons]
      omega
    · have hx' : x ∈ t := by
        rcases List.mem_cons.mp hx with rfl | hx'
        · exact absurd rfl hhx
        · exact hx'
      have hpos : 0 < t.length := List.length_pos_of_mem hx'
      rw [List.filter_cons]
      have hp : (decide (h.id ≠ x.id)) = true := by simp [hhx]
      rw [hp]
      simp only [if_true, List.length_cons]
      rw [ih hnd.2 hx']
      omega

/-- Listing preserves the number of rows. -/
theorem listNotes_length (s : BStore) : (listNotes s).length = s.db.notes.length :=
  (perm_sortByUpdatedDesc s.db.notes).length_eq

/-- The database after a Store delete: the matching row filtered out. -/
theorem storeAfterDelete_db (b : List Note → Bool) (i : Int) (s : BStore) :
    (storeAfterDelete b i s).db.notes = s.db.notes.filter fun n => n.id ≠ i := by
  unfold storeAfterDelete
  rw [db_syncToBackend]

/-- What the re-clamp guarantees: the snapshot is untouched, the selection is
never made negative, it is in range whenever the list is non-empty, and a
selection at or past the end of a non-empty list is set to count-1. -/
theorem clampAfterDelete_spec (m : UiModel) (h0 : 0 ≤ m.selectedIndex) :
    (clampAfterDelete m).notes = m.notes ∧
    0 ≤ (clampAfterDelete m).selectedIndex ∧
    (0 < m.notes.length →
      (clampAfterDelete m).selectedIndex < (m.notes.length : Int)) ∧
    ((m.notes.length : Int) ≤ m.selectedIndex → 0 < m.notes.length →
      (clampAfterDelete m).selectedIndex = (m.notes.length : Int) - 1) := by
  unfold clampAfterDelete
  split
  · rename_i hc
    dsimp only
    refine ⟨rfl, by omega, fun _ => by omega, fun _ _ => rfl⟩
  · rename_i hc
    rw [not_and_or] at hc
    refine ⟨rfl, h0, fun hlen => ?_, fun hge hlen => ?_⟩
    · rcases hc with hc | hc
      · omega
      · omega
    · rcases hc with hc | hc
      · exact absurd hge hc
      · omega

/-- The shape of the Normal-mode "d" transition under a valid selection:
delete the selected note, reload the snapshot, re-clamp. -/
theorem handleKey_d_normal (b : List Note → Bool) (now : Nat) (st : BStore)
    (notes : List Note) (idx : Int) (et ec : GoStr) (cp : Int) (flag : Bool)
    (err : Option String) (hg : 0 < notes.length) (hl : idx < (notes.length : Int)) :
    handleKeyPress b now ⟨st, notes, idx, .normal, et, ec, cp, flag, err⟩ (gs "d") =
      clampAfterDelete
        { store := storeAfterDelete b (goNth notes idx).id st,
          notes := listNotes (storeAfterDelete b (goNth notes idx).id st),
          selectedIndex := idx, mode := .normal, editTitle := et, editContent := ec,
          cursorPos := cp, editingTitle := flag, err := err } := by
  have hred : handleKeyPress b now ⟨st, notes, idx, .normal, et, ec, cp, flag, err⟩ (gs "d") =
      if 0 < notes.length ∧ idx < (notes.length : Int) then
        clampAfterDelete
          { store := storeAfterDelete b (goNth notes idx).id st,
            notes := listNotes (storeAfterDelete b (goNth notes idx).id st),
            selectedIndex := idx, mode := .normal, editTitle := et, editContent := ec,
            cursorPos := cp, editingTitle := flag, err := err }
      else ⟨st, notes, idx, .normal, et, ec, cp, flag, err⟩ := rfl
  rw [hred, if_pos ⟨hg, hl⟩]

/-- C8 (amended): in Normal mode, the "d" command deletes the selected note
(the new snapshot has one fewer note), and the re-clamped selection is never
negative and, whenever the new list is non-empty, in its range; in particular
when the removed note was at the last index and the new list is non-empty the
selection equals count-1 of the new list.  (When the new list is empty the
selection keeps its old value, necessarily out of range of an empty list.) -/
theorem delete_reclamps_selection (b : List Note → Bool) (now : Nat) (m : UiModel)
    (hmode : m.mode = .normal) (hsnap : m.notes = listNotes m.store)
    (hnd : (m.store.db.notes.map Note.id).Nodup)
    (h0 : 0 ≤ m.selectedIndex) (hl : m.selectedIndex < (m.notes.length : Int)) :
    (handleKeyPress b now m (gs "d")).notes.length = m.notes.length - 1 ∧
    0 ≤ (handleKeyPress b now m (gs "d")).selectedIndex ∧
    (0 < (handleKeyPress b now m (gs "d")).notes.length →
      (handleKeyPress b now m (gs "d")).selectedIndex <
        ((handleKeyPress b now m (gs "d")).notes.length : Int)) ∧
    (m.selectedIndex = (m.notes.length : Int) - 1 →
      0 < (handleKeyPress b now m (gs "d")).notes.length →
      (handleKeyPress b now m (gs "d")).selectedIndex =
        ((handleKeyPress b now m (gs "d")).notes.length : Int) - 1) := by
  rcases m with ⟨st, notes, idx, mode, et, ec, cp, flag, err⟩
  simp only at hmode hsnap hnd h0 hl ⊢
  subst hmode
  subst hsnap
  have hmem : goNth (listNotes st) idx ∈ st.db.notes :=
    (perm_sortByUpdatedDesc _).mem_iff.mp (goNth_mem _ idx h0 hl)
  have hdblen : st.db.notes.length = (listNotes st).length :=
    ((perm_sortByUpdatedDesc st.db.notes).length_eq).symm
  have hDlen : (listNotes (storeAfterDelete b (goNth (listNotes st) idx).id st)).length =
      (listNotes st).length - 1 := by
    rw [listNotes_length, listNotes_length, storeAfterDelete_db,
      length_filter_ne_of_nodup st.db.notes _ hnd hmem]
  rw [handleKey_d_normal b now st (listNotes st) idx et ec cp flag err (by omega) hl]
  obtain ⟨cn, cs, cr, cl⟩ := clampAfterDelete_spec
    { store := storeAfterDelete b (goNth (listNotes st) idx).id st,
      notes := listNotes (storeAfterDelete b (goNth (listNotes st) idx).id st),
      selectedIndex := idx, mode := .normal, editTitle := et, editContent := ec,
      cursorPos := cp, editingTitle := flag, err := err } h0
  rw [cn]
  dsimp only at cr cl ⊢
  rw [hDlen] at cr ⊢
  refine ⟨rfl, cs, cr, fun hlast hpos => ?_⟩
  have := cl (by omega) (by omega)
  rw [this, hDlen]

/-- C8 (witness): with two notes selected at the last index, "d" leaves a
one-note list with the selection clamped to index 0 = count-1. -/
theorem delete_reclamps_selection_witness :
    (handleKeyPress bFail 0
        { store := storeAB, notes := listNotes storeAB, selectedIndex := 1, mode := .normal,
          editTitle := [], editContent := [], cursorPos := 0, editingTitle := true,
          err := none } (gs "d")).notes.length =
      (listNotes storeAB).length - 1 ∧
    0 ≤ (handleKeyPress bFail 0
        { store := storeAB, notes := listNotes storeAB, selectedIndex := 1, mode := .normal,
          editTitle := [], editContent := [], cursorPos := 0, editingTitle := true,
          err := none } (gs "d")).selectedIndex ∧
    (0 < (handleKeyPress bFail 0
        { store := storeAB, notes := listNotes storeAB, selectedIndex := 1, mode := .normal,
          editTitle := [], editContent := [], cursorPos := 0, editingTitle := true,
          err := none } (gs "d")).notes.length →
      (handleKeyPress bFail 0
        { store := storeAB, notes := listNotes storeAB, selectedIndex := 1, mode := .normal,
          editTitle := [], editContent := [], cursorPos := 0, editingTitle := true,
          err := none } (gs "d")).selectedIndex <
        ((handleKeyPress bFail 0
        { store := storeAB, notes := listNotes storeAB, selectedIndex := 1, mode := .normal,
          editTitle := [], editContent := [], cursorPos := 0, editingTitle := true,
          err := none } (gs "d")).notes.length : Int)) :=
  have h := delete_reclamps_selection bFail 0
    { store := storeAB, notes := listNotes storeAB, selectedIndex := 1, mode := .normal,
      editTitle := [], editContent := [], cursorPos := 0, editingTitle := true, err := none }
    rfl rfl (by decide) (by decide) (by decide)
  ⟨h.1, h.2.1, h.2.2.1⟩

/-- C8 (counterexample): deleting the only note of a one-note list leaves the
selection at index 0 over an empty snapshot, which is out of range of the new
list (and differs from its count-1, which is -1), refuting the claim that the
re-clamped selection is never out of range of the new list. -/
theorem delete_reclamps_selection_counterexample :
    (handleKeyPress bFail 0 uiNormalA (gs "d")).notes.length = 0 ∧
    (handleKeyPress bFail 0 uiNormalA (gs "d")).selectedIndex = 0 ∧
    ¬((handleKeyPress bFail 0 uiNormalA (gs "d")).selectedIndex <
        ((handleKeyPress bFail 0 uiNormalA (gs "d")).notes.length : Int)) ∧
    (handleKeyPress bFail 0 uiNormalA (gs "d")).selectedIndex ≠
      ((handleKeyPress bFail 0 uiNormalA (gs "d")).notes.length : Int) - 1 := by
  refine ⟨by decide, by decide, by decide, by decide⟩

/-- A one-byte key string is none of the edit-mode control keys, whose
`msg.String()` forms all have more than one byte. -/
theorem len1_not_control (k : GoStr) (h : k.length = 1) :
    k ≠ gs "esc" ∧ k ≠ gs "ctrl+s" ∧ k ≠ gs "tab" ∧ k ≠ gs "backspace" ∧
    k ≠ gs "left" ∧ k ≠ gs "right" ∧ k ≠ gs "enter" := by
  refine ⟨?_, ?_, ?_, ?_, ?_, ?_, ?_⟩ <;>
    (intro he; rw [he] at h; exact absurd h (by decide))

/-- C9 (amended): in Create/Edit mode, every key whose string is a single
byte — the only case the handler treats as a printed character, multi-byte
characters being ignored — is spliced into the active field at the caret's
byte offset and the caret advances by one; backward-delete removes the byte
immediately before the caret and decrements the caret, and is a no-op when
the caret is at offset 0. -/
theorem edit_insert_and_backspace (b : List Note → Bool) (now : Nat) (m : UiModel)
    (k : GoStr) (hmode : m.mode = .edit ∨ m.mode = .create) :
    (k.length = 1 →
      ((m.editingTitle = true →
        (handleKeyPress b now m k).editTitle =
          m.editTitle.take m.cursorPos.toNat ++ k ++ m.editTitle.drop m.cursorPos.toNat ∧
        (handleKeyPress b now m k).cursorPos = m.cursorPos + 1 ∧
        (handleKeyPress b now m k).editContent = m.editContent) ∧
       (m.editingTitle = false →
        (handleKeyPress b now m k).editContent =
          m.editContent.take m.cursorPos.toNat ++ k ++ m.editContent.drop m.cursorPos.toNat ∧
        (handleKeyPress b now m k).cursorPos = m.cursorPos + 1 ∧
        (handleKeyPress b now m k).editTitle = m.editTitle))) ∧
    (k = gs "backspace" →
      ((0 < m.cursorPos →
        ((m.editingTitle = true →
          (handleKeyPress b now m k).editTitle =
            m.editTitle.take (m.cursorPos - 1).toNat ++ m.editTitle.drop m.cursorPos.toNat ∧
          (handleKeyPress b now m k).cursorPos = m.cursorPos - 1) ∧
         (m.editingTitle = false →
          (handleKeyPress b now m k).editContent =
            m.editContent.take (m.cursorPos - 1).toNat ++ m.editContent.drop m.cursorPos.toNat ∧
          (handleKeyPress b now m k).cursorPos = m.cursorPos - 1))) ∧
       (¬(0 < m.cursorPos) → handleKeyPress b now m k = m))) := by
  rcases m with ⟨st, notes, idx, mode, et, ec, cp, flag, err⟩
  simp only at hmode
  rcases hmode with hm | hm <;> subst hm <;>
  · constructor
    · intro hlen
      obtain ⟨h1, h2, h3, h4, h5, h6, h7⟩ := len1_not_control k hlen
      simp only [handleKeyPress]
      rw [if_neg h1, if_neg h2, if_neg h3, if_neg h4, if_neg h5, if_neg h6, if_neg h7,
        if_pos hlen]
      constructor
      · intro hT
        subst hT
        rw [if_pos rfl]
        exact ⟨rfl, rfl, rfl⟩
      · intro hF
        subst hF
        rw [if_neg (by decide)]
        exact ⟨rfl, rfl, rfl⟩
    · intro hk
      subst hk
      simp only [handleKeyPress]
      rw [if_neg (by decide), if_neg (by decide), if_neg (by decide), if_pos True.intro]
      constructor
      · intro hcp
        constructor
        · intro hT
          subst hT
          rw [if_pos rfl, if_pos hcp]
          exact ⟨rfl, rfl⟩
        · intro hF
          subst hF
          rw [if_neg (by decide), if_pos hcp]
          exact ⟨rfl, rfl⟩
      · intro hcp
        cases flag
        · rw [if_neg (by decide), if_neg hcp]
        · rw [if_pos rfl, if_neg hcp]

/-- C9 (witness): typing the one-byte character "x" into the empty Create
draft splices it at the caret and advances the caret; backspace at offset 0
is a no-op. -/
theorem edit_insert_and_backspace_witness :
    (gs "x").length = 1 ∧
    ((handleKeyPress bFail 0 uiCreateEmpty (gs "x")).editTitle =
      uiCreateEmpty.editTitle.take uiCreateEmpty.cursorPos.toNat ++ gs "x" ++
        uiCreateEmpty.editTitle.drop uiCreateEmpty.cursorPos.toNat ∧
     (handleKeyPress bFail 0 uiCreateEmpty (gs "x")).cursorPos =
       uiCreateEmpty.cursorPos + 1 ∧
     (handleKeyPress bFail 0 uiCreateEmpty (gs "x")).editContent =
       uiCreateEmpty.editContent) ∧
    handleKeyPress bFail 0 uiCreateEmpty (gs "backspace") = uiCreateEmpty :=
  ⟨by decide,
   ((edit_insert_and_backspace bFail 0 uiCreateEmpty (gs "x") (Or.inr rfl)).1
      (by decide)).1 rfl,
   ((edit_insert_and_backspace bFail 0 uiCreateEmpty (gs "backspace") (Or.inr rfl)).2
      rfl).2 (by decide)⟩

/-- C9 (counterexample): the printed character "é" — two bytes in UTF-8 — is
not spliced into the active field and the caret does not advance: the handler
only inserts keys whose string is a single byte, so the claim fails for
multi-byte printed characters. -/
theorem edit_insert_and_backspace_counterexample :
    (handleKeyPress bFail 0 uiCreateEmpty (gs "é")).editTitle = uiCreateEmpty.editTitle ∧
    (handleKeyPress bFail 0 uiCreateEmpty (gs "é")).cursorPos = uiCreateEmpty.cursorPos ∧
    (handleKeyPress bFail 0 uiCreateEmpty (gs "é")).editTitle ≠
      uiCreateEmpty.editTitle.take uiCreateEmpty.cursorPos.toNat ++ gs "é" ++
        uiCreateEmpty.editTitle.drop uiCreateEmpty.cursorPos.toNat ∧
    (handleKeyPress bFail 0 uiCreateEmpty (gs "é")).cursorPos ≠
      uiCreateEmpty.cursorPos + 1 := by
  refine ⟨by decide, by decide, by decide, by decide⟩

/-- The re-clamp after delete touches only the selection, so it preserves the
caret invariant. -/
theorem cursorInv_clampAfterDelete (m : UiModel) (h : CursorInv m) :
    CursorInv (clampAfterDelete m) := by
  unfold clampAfterDelete
  split
  · simp only [CursorInv, activeLen] at h ⊢
    exact h
  · exact h

/-- Coercing an empty draft title to "Untitled" preserves the caret invariant
(an empty active title forces the caret to 0, which is within "Untitled"). -/
theorem cursorInv_coerceUntitled (m : UiModel) (h : CursorInv m) :
    CursorInv (coerceUntitled m) := by
  unfold coerceUntitled
  split
  · rename_i hemp
    simp only [CursorInv, activeLen] at h ⊢
    by_cases hf : m.editingTitle = true
    · rw [if_pos hf] at h
      rw [if_pos hf]
      rw [hemp] at h
      have h8 : (gs "Untitled").length = 8 := by decide
      simp only [List.length_nil] at h
      omega
    · rw [if_neg hf] at h
      rw [if_neg hf]
      exact h
  · exact h

/-- The store call of `saveNote` never touches the draft fields or the caret. -/
theorem commitDraft_fields (b : List Note → Bool) (now : Nat) (m0 m1 : UiModel)
    (h : commitDraft b now m0 = .ok m1) :
    m1.cursorPos = m0.cursorPos ∧ m1.editTitle = m0.editTitle ∧
    m1.editContent = m0.editContent ∧ m1.editingTitle = m0.editingTitle := by
  unfold commitDraft at h
  split at h
  · have h' : Except.ok { m0 with store :=
        (syncToBackend b { m0.store with db :=
          { notes := m0.store.db.notes ++
              [{ id := m0.store.db.notes.foldl (fun a n => max a n.id) m0.store.db.seq + 1,
                 title := m0.editTitle, content := m0.editContent,
                 createdAt := now, updatedAt := now }],
            seq := m0.store.db.notes.foldl (fun a n => max a n.id) m0.store.db.seq + 1 } }) }
        = Except.ok m1 := h
    rw [← Except.ok.inj h']
    exact ⟨rfl, rfl, rfl, rfl⟩
  · split at h
    · have h' : Except.ok { m0 with store :=
          (syncToBackend b { m0.store with db := { m0.store.db with
            notes := m0.store.db.notes.map fun n =>
              if n.id = (goNth m0.notes m0.selectedIndex).id then
                { n with title := m0.editTitle, content := m0.editContent, updatedAt := now }
              else n } }) } = Except.ok m1 := h
      rw [← Except.ok.inj h']
      exact ⟨rfl, rfl, rfl, rfl⟩
    · rw [← Except.ok.inj h]
      exact ⟨rfl, rfl, rfl, rfl⟩

/-- `saveNote` preserves the caret invariant on the model it hands back. -/
theorem cursorInv_saveNote (b : List Note → Bool) (now : Nat) (m : UiModel)
    (h : CursorInv m) : CursorInv (saveNote b now m).1 := by
  have h0 : CursorInv (coerceUntitled m) := cursorInv_coerceUntitled m h
  unfold saveNote
  dsimp only
  cases hc : commitDraft b now (coerceUntitled m) with
  | error e => exact h0
  | ok m1 =>
    obtain ⟨f1, f2, f3, f4⟩ := commitDraft_fields b now (coerceUntitled m) m1 hc
    simp only [CursorInv, activeLen] at h0 ⊢
    rw [f1, f2, f3, f4]
    exact h0

set_option maxHeartbeats 1000000 in
/-- C10: every key handled in any mode — mode entry via "n" or "e", field
switch, character insertion, backward-delete, left/right movement, newline,
save, and all Normal-mode commands — preserves the invariant that the caret
offset lies between 0 and the length of the currently active field's text, so
every slice the edit handlers take at the caret is in bounds. -/
theorem cursor_invariant_preserved (b : List Note → Bool) (now : Nat) (m : UiModel)
    (k : GoStr) (h : CursorInv m) : CursorInv (handleKeyPress b now m k) := by
  rcases m with ⟨st, notes, idx, mode, et, ec, cp, flag, err⟩
  cases mode with
  | normal =>
    simp only [handleKeyPress]
    split
    · exact h
    split
    · simp only [CursorInv, activeLen]
      refine ⟨le_refl _, ?_⟩
      simp
    split
    · split
      · simp only [CursorInv, activeLen]
        refine ⟨Int.natCast_nonneg _, ?_⟩
        simp
      · exact h
    split
    · split
      · split
        · simp only [CursorInv, activeLen] at h ⊢
          exact h
        · apply cursorInv_clampAfterDelete
          simp only [CursorInv, activeLen] at h ⊢
          exact h
      · exact h
    split
    · split
      · simp only [CursorInv, activeLen] at h ⊢
        exact h
      · exact h
    split
    · split
      · simp only [CursorInv, activeLen] at h ⊢
        exact h
      · exact h
    · exact h
  | edit =>
    simp only [handleKeyPress]
    split
    · simp only [CursorInv, activeLen] at h ⊢
      exact h
    split
    · split
      · rename_i m1 heq
        have hs := cursorInv_saveNote b now ⟨st, notes, idx, .edit, et, ec, cp, flag, err⟩ h
        rw [heq] at hs
        simp only [CursorInv, activeLen] at hs ⊢
        exact hs
      · rename_i m1 e heq
        have hs := cursorInv_saveNote b now ⟨st, notes, idx, .edit, et, ec, cp, flag, err⟩ h
        rw [heq] at hs
        simp only [CursorInv, activeLen] at hs ⊢
        exact hs
    split
    · simp only [CursorInv, activeLen]
      refine ⟨?_, le_refl _⟩
      split
      · exact Int.natCast_nonneg _
      · exact Int.natCast_nonneg _
    split
    · split
      · split
        · rename_i hflag hcp
          simp only [CursorInv, activeLen] at h ⊢
          rw [if_pos hflag] at h ⊢
          simp only [List.length_append, List.length_take, List.length_drop]
          omega
        · exact h
      · split
        · rename_i hflag hcp
          simp only [CursorInv, activeLen] at h ⊢
          rw [if_neg hflag] at h ⊢
          simp only [List.length_append, List.length_take, List.length_drop]
          omega
        · exact h
    split
    · split
      · rename_i hcp
        simp only [CursorInv, activeLen] at h ⊢
        omega
      · exact h
    split
    · split
      · split
        · rename_i hflag hcp
          simp only [CursorInv, activeLen] at h ⊢
          rw [if_pos hflag] at h ⊢
          omega
        · exact h
      · split
        · rename_i hflag hcp
          simp only [CursorInv, activeLen] at h ⊢
          rw [if_neg hflag] at h ⊢
          omega
        · exact h
    split
    · split
      · simp only [CursorInv, activeLen]
        refine ⟨Int.natCast_nonneg _, ?_⟩
        rw [if_neg (by simp)]
      · rename_i hflag
        have hnl : (gs "\n").length = 1 := by decide
        simp only [CursorInv, activeLen] at h ⊢
        rw [if_neg hflag] at h ⊢
        simp only [List.length_append, List.length_take, List.length_drop, hnl]
        omega
    split
    · rename_i hlen
      split
      · rename_i hflag
        simp only [CursorInv, activeLen] at h ⊢
        rw [if_pos hflag] at h ⊢
        simp only [List.length_append, List.length_take, List.length_drop, hlen]
        omega
      · rename_i hflag
        simp only [CursorInv, activeLen] at h ⊢
        rw [if_neg hflag] at h ⊢
        simp only [List.length_append, List.length_take, List.length_drop, hlen]
        omega
    · exact h
  | create =>
    simp only [handleKeyPress]
    split
    · simp only [CursorInv, activeLen] at h ⊢
      exact h
    split
    · split
      · rename_i m1 heq
        have hs := cursorInv_saveNote b now ⟨st, notes, idx, .create, et, ec, cp, flag, err⟩ h
        rw [heq] at hs
        simp only [CursorInv, activeLen] at hs ⊢
        exact hs
      · rename_i m1 e heq
        have hs := cursorInv_saveNote b now ⟨st, notes, idx, .create, et, ec, cp, flag, err⟩ h
        rw [heq] at hs
        simp only [CursorInv, activeLen] at hs ⊢
        exact hs
    split
    · simp only [CursorInv, activeLen]
      refine ⟨?_, le_refl _⟩
      split
      · exact Int.natCast_nonneg _
      · exact Int.natCast_nonneg _
    split
    · split
      · split
        · rename_i hflag hcp
          simp only [CursorInv, activeLen] at h ⊢
          rw [if_pos hflag] at h ⊢
          simp only [List.length_append, List.length_take, List.length_drop]
          omega
        · exact h
      · split
        · rename_i hflag hcp
          simp only [CursorInv, activeLen] at h ⊢
          rw [if_neg hflag] at h ⊢
          simp only [List.length_append, List.length_take, List.length_drop]
          omega
        · exact h
    split
    · split
      · rename_i hcp
        simp only [CursorInv, activeLen] at h ⊢
        omega
      · exact h
    split
    · split
      · split
        · rename_i hflag hcp
          simp only [CursorInv, activeLen] at h ⊢
          rw [if_pos hflag] at h ⊢
          omega
        · exact h
      · split
        · rename_i hflag hcp
          simp only [CursorInv, activeLen] at h ⊢
          rw [if_neg hflag] at h ⊢
          omega
        · exact h
    split
    · split
      · simp only [CursorInv, activeLen]
        refine ⟨Int.natCast_nonneg _, ?_⟩
        rw [if_neg (by simp)]
      · rename_i hflag
        have hnl : (gs "\n").length = 1 := by decide
        simp only [CursorInv, activeLen] at h ⊢
        rw [if_neg hflag] at h ⊢
        simp only [List.length_append, List.length_take, List.length_drop, hnl]
        omega
    split
    · rename_i hlen
      split
      · rename_i hflag
        simp only [CursorInv, activeLen] at h ⊢
        rw [if_pos hflag] at h ⊢
        simp only [List.length_append, List.length_take, List.length_drop, hlen]
        omega
      · rename_i hflag
        simp only [CursorInv, activeLen] at h ⊢
        rw [if_neg hflag] at h ⊢
        simp only [List.length_append, List.length_take, List.length_drop, hlen]
        omega
    · exact h

/-- C10 (witness): the invariant holds of the empty Create draft and is
preserved by inserting the character "x". -/
theorem cursor_invariant_preserved_witness :
    CursorInv uiCreateEmpty ∧
    CursorInv (handleKeyPress bFail 0 uiCreateEmpty (gs "x")) :=
  ⟨by decide, cursor_invariant_preserved bFail 0 uiCreateEmpty (gs "x") (by decide)⟩
